import Mathlib

/-!
Verification of the path-metadata classifier of `archive_organizer.py`
(`extract_metadata` and `propose_archive_directory`).

The Python code is embedded shallowly:

* Python strings are Lean `String`s; all character-level work happens on
  `String.data : List Char` (Python indexing/slicing is by code point, as is
  `List Char`).
* `str.split('/')` is `splitOnChar '/'`, `'/'.join` is `joinChar '/'`,
  `'needle' in s` is `containsSub`, `list.index` is `idxOf?`,
  `os.path.dirname` is `dirname` (posixpath semantics).
* Each regular expression of the source is translated to an explicit finite
  pattern match with the exact semantics of the Python `re` calls on it,
  including `re.IGNORECASE`, the non-overlapping left-to-right scan of
  `re.findall` / `re.sub`, the leftmost match of `re.search` / `re.sub`, and
  the fact that `$` also matches just before a final newline while `.` does
  not match a newline.
* `re.IGNORECASE` matching uses the Unicode *simple* case mapping plus the
  `sre_compile._equivalences` pairs, whereas `str.lower()` uses the full case
  mapping; the two disagree at U+0130 (`İ`), whose simple lowercase is `i` but
  whose `str.lower()` is `i` + U+0307.  Both mappings are modeled exactly on
  every code point that can interact with the program's pure-ASCII patterns
  and table strings (`reSimpleLower` / `reCharIgnoreCase` versus
  `pyLowerChar`); all other characters are left unchanged on both sides, which
  preserves the outcome of every comparison the program makes.
* A Python run that raises an uncaught exception is modeled as `none`:
  `extract_metadata` returns `Option Metadata` because
  `sample_name_pattern.match(description)` raises `TypeError` when
  `description is None`, which happens when the segment two past the anchor is
  missing or empty (line 53's `if experiment_dir:` is falsy for `""`).
-/

/-- Python `s.split(sep)` for a one-character separator: keeps empty pieces,
`"".split(sep) == ['']`. -/
def splitOnChar (sep : Char) : List Char → List (List Char)
  | [] => [[]]
  | c :: rest =>
    if c = sep then [] :: splitOnChar sep rest
    else
      match splitOnChar sep rest with
      | h :: t => (c :: h) :: t
      | [] => [[c]]

/-- Python `sep.join(pieces)` for a one-character separator. -/
def joinChar (sep : Char) : List (List Char) → List Char
  | [] => []
  | [x] => x
  | x :: y :: rest => x ++ sep :: joinChar sep (y :: rest)

/-- Boolean list-prefix test (used for Python `str.startswith` and substring
search). -/
def prefixOf : List Char → List Char → Bool
  | [], _ => true
  | _ :: _, [] => false
  | a :: as, b :: bs => if a = b then prefixOf as bs else false

/-- Python `needle in hay` (substring containment). -/
def containsSub (needle : List Char) : List Char → Bool
  | [] => prefixOf needle []
  | c :: t => prefixOf needle (c :: t) || containsSub needle t

/-- Python `list.index(x)` wrapped in `try/except ValueError`: the index of the
first occurrence, or `none`. -/
def idxOf? (l : List String) (x : String) : Option Nat :=
  match l with
  | [] => none
  | a :: t => if a = x then some 0 else (idxOf? t x).map (· + 1)

/-- `os.path.dirname` (posixpath): everything before the final `/`, with
trailing slashes stripped unless the head is all slashes. -/
def dirnameChar (cs : List Char) : List Char :=
  let tailLen := (cs.reverse.takeWhile (fun c => c ≠ '/')).length
  let head := cs.take (cs.length - tailLen)
  if head ≠ [] ∧ ¬ head.all (fun c => c = '/') then
    (head.reverse.dropWhile (fun c => c = '/')).reverse
  else head

/-- The per-character lowercasing used by `re.IGNORECASE` matching on `str`
patterns (`sre_lower_unicode`), which is the Unicode *simple* case mapping.
It is modeled exactly on the code points whose simple lowercase lands in the
ASCII alphabet of this program's patterns: the ASCII case pairs, U+0130
(LATIN CAPITAL LETTER I WITH DOT ABOVE, whose simple lowercase is `i` — unlike
`str.lower()`, which expands it to two characters) and U+212A (KELVIN SIGN,
simple lowercase `k`).  Every other character simple-lowercases outside that
alphabet and is left unchanged, which preserves the outcome of every
comparison against the programs' ASCII pattern characters. -/
def reSimpleLower (c : Char) : Char :=
  if c = Char.ofNat 0x130 then 'i'
  else if c = Char.ofNat 0x212A then 'k'
  else Char.toLower c

/-- Whether input character `c` matches the ASCII-lowercase pattern character
`p` under `re.IGNORECASE` (Unicode): `sre_compile` also registers the extra
case-equivalent code points of `_equivalences` for a pattern literal, of which
`ı` (U+0131, for `i`) and `ſ` (U+017F, for `s`) are the ones whose partner
letter occurs in this program's patterns; each is its own simple lowercase. -/
def reCharIgnoreCase (p c : Char) : Bool :=
  reSimpleLower c = p ||
    (p = 'i' && c = Char.ofNat 0x131) ||
    (p = 's' && c = Char.ofNat 0x17F)

/-- A fixed ASCII-lowercase pattern matched case-insensitively at the head of
the input. -/
def reStartsWithChars : List Char → List Char → Bool
  | [], _ => true
  | _ :: _, [] => false
  | p :: ps, c :: cs => reCharIgnoreCase p c && reStartsWithChars ps cs

/-- A fixed ASCII-lowercase pattern matched case-insensitively against the
whole input. -/
def reEqIgnoreCase : List Char → List Char → Bool
  | [], [] => true
  | p :: ps, c :: cs => reCharIgnoreCase p c && reEqIgnoreCase ps cs
  | _, _ => false

/-- Case-insensitive test for a fixed lowercase pattern at the head of `cs`,
with the `re.IGNORECASE` character semantics. -/
def lowerStartsWith (pat : String) (cs : List Char) : Bool :=
  reStartsWithChars pat.data cs

/-- One step of the alternation `((RNA)|(ChIP)|(ATAC))` with `re.IGNORECASE` at
the head of `cs`: the length of the token matched there, if any.  The three
alternatives start with distinct letters, so at most one applies. -/
def tokLen (cs : List Char) : Option Nat :=
  if lowerStartsWith "rna" cs then some 3
  else if lowerStartsWith "chip" cs then some 4
  else if lowerStartsWith "atac" cs then some 4
  else none

/-- The left-to-right non-overlapping scan of `re.findall` on the assay
alternation, written with a fuel argument so that the recursion is structural
(a matched token consumes at least three characters, so any `fuel ≥ cs.length`
is enough). -/
def findAllTokensFuel : Nat → List Char → List (List Char)
  | 0, _ => []
  | _ + 1, [] => []
  | fuel + 1, c :: rest =>
    match tokLen (c :: rest) with
    | some n => (c :: rest).take n :: findAllTokensFuel fuel (rest.drop (n - 1))
    | none => findAllTokensFuel fuel rest

/-- `re.findall(r'((RNA)|(ChIP)|(ATAC))', s, re.IGNORECASE)`: the left-to-right
non-overlapping scan, returning each matched text in its original case.  The
first element (if any) is also the match of `re.search` on the same pattern. -/
def findAllTokens (cs : List Char) : List (List Char) :=
  findAllTokensFuel cs.length cs

/-- The tail `\-?(seq)?` of the researcher-suffix pattern, required to consume
all of `cs` (because the pattern is `$`-anchored): nothing, a lone `-`, a
case-insensitive `seq`, or `-` followed by a case-insensitive `seq`. -/
def assayRest (cs : List Char) : Bool :=
  cs = [] || cs = [Char.ofNat 45] || reEqIgnoreCase "seq".data cs ||
    (cs.head? = some '-' && reEqIgnoreCase "seq".data cs.tail)

/-- `((RNA)|(ChIP)|(ATAC))\-?(seq)?$` matching all of `cs`. -/
def inSuffixCore (cs : List Char) : Bool :=
  match tokLen cs with
  | some n => assayRest (cs.drop n)
  | none => false

/-- `[\-\_]?((RNA)|(ChIP)|(ATAC))\-?(seq)?$` matching all of `cs`. -/
def inSuffixLang (cs : List Char) : Bool :=
  inSuffixCore cs ||
    match cs with
    | c :: rest => (c = '-' ∨ c = '_') && inSuffixCore rest
    | [] => false

/-- `re.sub(r'[\-\_]?((RNA)|(ChIP)|(ATAC))\-?(seq)?$', '', s, re.IGNORECASE)`
ignoring the final-newline rule for `$`: the leftmost (= longest, as every
match is `$`-anchored) suffix in the pattern language is removed.  Suffix
lengths range over 3..9. -/
def stripAssayCore (cs : List Char) : List Char :=
  match [9, 8, 7, 6, 5, 4, 3].find?
      (fun k => decide (k ≤ cs.length) && inSuffixLang (cs.drop (cs.length - k))) with
  | some k => cs.take (cs.length - k)
  | none => cs

/-- The full `re.sub` of line 44: in Python `$` also matches just before a
final newline, and no pattern character can consume a newline, so a trailing
newline is skipped over and preserved. -/
def stripAssaySuffix (s : String) : String :=
  if s.data.getLast? = some '\n' then ⟨stripAssayCore s.data.dropLast ++ ['\n']⟩
  else ⟨stripAssayCore s.data⟩

/-- Case-insensitive suffix test against a fixed lowercase pattern, with the
`re.IGNORECASE` character semantics (a length mismatch fails). -/
def isLowerSuffix (pat : List Char) (cs : List Char) : Bool :=
  reEqIgnoreCase pat (cs.drop (cs.length - pat.length))

/-- All the ways `\.fastq\.?g?z?` can expand, lowercase. -/
def sampleSuffixes : List (List Char) :=
  [".fastq".data, ".fastq.".data, ".fastqg".data, ".fastqz".data,
   ".fastq.g".data, ".fastq.z".data, ".fastqgz".data, ".fastq.gz".data]

/-- `re.compile(r'.*\.fastq\.?g?z?$', re.IGNORECASE).match(s)` as a Boolean:
`.` does not match a newline and `$` matches at the end or just before a final
newline, so the match succeeds iff the string (less a final newline) is
newline-free and ends in one of the expansions of the pattern tail. -/
def sampleNameMatch (s : String) : Bool :=
  let cs := if s.data.getLast? = some '\n' then s.data.dropLast else s.data
  !cs.contains '\n' && sampleSuffixes.any (fun p => isLowerSuffix p cs)

/-- The metadata 4-tuple returned by `extract_metadata` (line 96), with Python
`None` as `none`.  `group_key` is the `base_fastq_dir` of the source. -/
structure Metadata where
  researcher : Option String
  experiment_type : Option String
  description : Option String
  group_key : String
deriving Repr, DecidableEq

/-- The all-empty result of lines 35 and 37. -/
def emptyMeta (filepath : String) : Metadata :=
  ⟨none, none, none, filepath⟩

/-- Lines 40-44: the segment after the anchor, if any, with the assay-type
suffix stripped when the segment is truthy (non-empty). -/
def researcherAt (parts : List String) (i : Nat) : Option String :=
  (parts[i + 1]?).map (fun r => if r = "" then r else stripAssaySuffix r)

/-- Lines 56-60: strip a leading `researcher_` or `researcher-` prefix from
the experiment directory when the researcher is truthy. -/
def expCleanedOf (researcher : Option String) (experiment_dir : String) : String :=
  match researcher with
  | some r =>
    if r ≠ "" ∧ prefixOf (r ++ "_").data experiment_dir.data then
      ⟨experiment_dir.data.drop (r.data.length + 1)⟩
    else if r ≠ "" ∧ prefixOf (r ++ "-").data experiment_dir.data then
      ⟨experiment_dir.data.drop (r.data.length + 1)⟩
    else experiment_dir
  | none => experiment_dir

/-- `re.findall` of the assay alternation, at the `String` level. -/
def findTokens (s : String) : List String :=
  (findAllTokens s.data).map String.mk

/-- Lines 62-76: `re.search` on the cleaned experiment directory (the leftmost
match is the head of the findall scan), else the last `re.findall` match over
the remaining path. -/
def experimentTypeOf (exp_cleaned remaining_path : String) : Option String :=
  match (findTokens exp_cleaned).head? with
  | some t => some (t ++ "-seq")
  | none => ((findTokens remaining_path).getLast?).map (fun t => t ++ "-seq")

/-- `'/'`-joining at the `String` level. -/
def joinSlash (l : List String) : String :=
  ⟨joinChar '/' (l.map String.data)⟩

/-- `str.split('/')` at the `String` level. -/
def splitSlash (s : String) : List String :=
  (splitOnChar '/' s.data).map String.mk

/-- Lines 83-94: the prefix up to and including the first segment equal to
`FASTQ`/`fastq`; the Python `if fastq_idx:` is truthiness, so index 0 falls
through to `os.path.dirname` exactly like "not found". -/
def baseFastqDir (filepath : String) (parts : List String) : String :=
  match parts.findIdx? (fun p => p = "FASTQ" ∨ p = "fastq") with
  | some k => if k ≠ 0 then joinSlash (parts.take (k + 1)) else ⟨dirnameChar filepath.data⟩
  | none => ⟨dirnameChar filepath.data⟩

/-- Lines 39-96 once an anchor index is fixed.  When the segment two past the
anchor is missing, or present but empty (line 53's `if experiment_dir:` is
falsy for `""` too), `description` stays `None` and line 80 raises `TypeError`
(`none`). -/
def extractFrom (filepath : String) (parts : List String) (i : Nat) : Option Metadata :=
  match parts[i + 2]? with
  | none => none
  | some experiment_dir =>
    if experiment_dir = "" then none
    else
      let researcher := researcherAt parts i
      let exp_cleaned := expCleanedOf researcher experiment_dir
      some { researcher := researcher
             experiment_type := experimentTypeOf exp_cleaned (joinSlash (parts.drop (i + 1)))
             description := if sampleNameMatch exp_cleaned then none else some exp_cleaned
             group_key := baseFastqDir filepath parts }

/-- `extract_metadata` (lines 14-96).  The anchor test is substring
containment of `/data/` (then `/external_data/`), and the anchor index is the
first segment equal to the anchor name; a `ValueError` from `list.index` is
caught and yields the all-empty result. -/
def extract_metadata (filepath : String) : Option Metadata :=
  if containsSub "/data/".data filepath.data then
    match idxOf? (splitSlash filepath) "data" with
    | some i => extractFrom filepath (splitSlash filepath) i
    | none => some (emptyMeta filepath)
  else if containsSub "/external_data/".data filepath.data then
    match idxOf? (splitSlash filepath) "external_data" with
    | some i => extractFrom filepath (splitSlash filepath) i
    | none => some (emptyMeta filepath)
  else some (emptyMeta filepath)

/-- One character of Python `str.lower()`, the *full* Unicode lowercase
mapping, modeled exactly on the code points whose lowercase interacts with the
pure-ASCII strings this program compares against: the ASCII case pairs,
U+0130 → `i` followed by U+0307 (the single multi-character lowercase
expansion, which is why `"CHİP-seq".lower()` is not `"chip-seq"`), and
U+212A → `k`.  All other characters are left unchanged; their true lowercase
is never a fragment of the ASCII table strings, so every comparison with those
strings is unaffected. -/
def pyLowerChar (c : Char) : List Char :=
  if c = Char.ofNat 0x130 then ['i', Char.ofNat 0x307]
  else if c = Char.ofNat 0x212A then ['k']
  else [Char.toLower c]

/-- Python `str.lower()`. -/
def lowerOf (s : String) : String :=
  ⟨s.data.flatMap pyLowerChar⟩

/-- Lines 114-125: the `match experiment_type.lower():` table.  A falsy value
(`None` or `""`) skips the table and is kept as-is; an unrecognized value is
set to `None`. -/
def mapExperimentType : Option String → Option String
  | none => none
  | some s =>
    if s = "" then some s
    else if lowerOf s = "rna-seq" then some "slattery-rnaseq"
    else if lowerOf s = "chip-seq" then some "slattery-chipseq"
    else if lowerOf s = "atac-seq" then some "slattery-atacseq"
    else none

/-- One match of `((RNA)|(ChIP)|(ATAC))\-?(seq)?_?` with `re.IGNORECASE` at
the head of `cs`: the number of characters it consumes (each optional piece is
taken greedily; nothing after them can fail, so there is no backtracking). -/
def munchLen (cs : List Char) : Option Nat :=
  match tokLen cs with
  | none => none
  | some n =>
    let r1 := cs.drop n
    let d1 := if r1.head? = some '-' then 1 else 0
    let r2 := r1.drop d1
    let d2 := if lowerStartsWith "seq" r2 then 3 else 0
    let r3 := r2.drop d2
    let d3 := if r3.head? = some '_' then 1 else 0
    some (n + d1 + d2 + d3)

/-- Fuelled scan for `re.sub(r'((RNA)|(ChIP)|(ATAC))\-?(seq)?_?', '', s,
re.IGNORECASE)` (line 142): non-overlapping left-to-right matches are removed,
everything else is kept. -/
def removeTokensFuel : Nat → List Char → List Char
  | 0, _ => []
  | _ + 1, [] => []
  | fuel + 1, c :: rest =>
    match munchLen (c :: rest) with
    | some n => removeTokensFuel fuel (rest.drop (n - 1))
    | none => c :: removeTokensFuel fuel rest

/-- The `re.sub` of line 142 (a match consumes at least three characters, so
`cs.length` is enough fuel). -/
def removeTokens (cs : List Char) : List Char :=
  removeTokensFuel cs.length cs

/-- `re.sub(r'^((mm)|(hg)|(dm))\d+_', '', s)` (line 139, case-sensitive): the
anchored prefix "two-letter organism code, one or more digits, underscore" is
removed if present.  `\d+` is greedy and `_` is not a digit, so the underscore
must follow the maximal digit run. -/
def stripOrganismCode (s : String) : String :=
  match s.data with
  | a :: b :: rest =>
    if [a, b] = "mm".data ∨ [a, b] = "hg".data ∨ [a, b] = "dm".data then
      if rest.takeWhile Char.isDigit ≠ [] then
        match rest.dropWhile Char.isDigit with
        | c :: tail => if c = '_' then ⟨tail⟩ else s
        | [] => s
      else s
    else s
  | _ => s

/-- `str.strip('_-')`: leading and trailing underscores and hyphens removed. -/
def stripUnderHyphen (cs : List Char) : List Char :=
  ((cs.dropWhile fun c => c = '_' ∨ c = '-').reverse.dropWhile
    fun c => c = '_' ∨ c = '-').reverse

/-- Python truthiness of an optional string. -/
def truthy : Option String → Bool
  | some s => s ≠ ""
  | none => false

/-- `if x: components.append(x)` for an optional string. -/
def optComp : Option String → List String
  | some s => if s = "" then [] else [s]
  | none => []

/-- Lines 136-144: organism prefix off, assay tokens off when an experiment
type was kept after the table, then `strip('_-')`. -/
def cleanDescription (experiment_type : Option String) (d : String) : String :=
  let c1 := stripOrganismCode d
  let c2 := if truthy experiment_type then (⟨removeTokens c1.data⟩ : String) else c1
  ⟨stripUnderHyphen c2.data⟩

/-- Lines 135-147: the description component, if any survives cleaning. -/
def descComp (experiment_type description : Option String) : List String :=
  match description with
  | some d =>
    if d = "" then []
    else
      let c := cleanDescription experiment_type d
      if c = "" then [] else [c]
  | none => []

/-- The ordered component list of lines 127-147: mapped experiment type, then
researcher, then cleaned description. -/
def componentsOf (researcher experiment_type description : Option String) : List String :=
  optComp (mapExperimentType experiment_type) ++ optComp researcher ++
    descComp (mapExperimentType experiment_type) description

/-- `propose_archive_directory` (lines 99-149). -/
def propose_archive_directory (researcher experiment_type description : Option String) :
    String :=
  if componentsOf researcher experiment_type description = [] then "uncategorized"
  else joinSlash (componentsOf researcher experiment_type description)

/-- The sample-filename pattern as the spec words it for the description
post-check (a name ending in `.fastq`, `.fastq.gz`, or `.fastq.bz2`,
case-insensitively).  This follows the spec text, for comparison with the
source-derived `sampleNameMatch`. -/
def specSampleNameMatch (s : String) : Bool :=
  [".fastq".data, ".fastq.gz".data, ".fastq.bz2".data].any
    (fun p => isLowerSuffix p s.data)

/-! ## Basic lemmas about the embedded primitives -/

theorem data_mk (l : List Char) : (String.mk l).data = l := rfl

theorem data_append (a b : String) : (a ++ b).data = a.data ++ b.data := rfl

theorem prefixOf_append (a t : List Char) : prefixOf a (a ++ t) = true := by
  induction a with
  | nil => rfl
  | cons x xs ih => simp [prefixOf, ih]

theorem prefixOf_refl (a : List Char) : prefixOf a a = true := by
  have h := prefixOf_append a []
  simpa using h

theorem prefixOf_iff (a b : List Char) : prefixOf a b = true ↔ ∃ t, a ++ t = b := by
  induction a generalizing b with
  | nil => simp [prefixOf]
  | cons x xs ih =>
    cases b with
    | nil =>
      simp [prefixOf]
    | cons y ys =>
      by_cases hxy : x = y
      · subst hxy
        simp [prefixOf, ih]
      · simp only [prefixOf, if_neg hxy, List.cons_append, List.cons.injEq]
        constructor
        · intro h; cases h
        · rintro ⟨t, hx, _⟩; exact absurd hx hxy

theorem splitOnChar_ne_nil (sep : Char) (cs : List Char) : splitOnChar sep cs ≠ [] := by
  cases cs with
  | nil => simp [splitOnChar]
  | cons c rest =>
    rw [splitOnChar]
    split
    · simp
    · split <;> simp

theorem splitOnChar_append_sep (sep : Char) (w rest : List Char) (hw : sep ∉ w) :
    splitOnChar sep (w ++ sep :: rest) = w :: splitOnChar sep rest := by
  induction w with
  | nil => simp [splitOnChar]
  | cons a w' ih =>
    have ha : a ≠ sep := fun h => hw (h ▸ List.mem_cons_self a w')
    have hw' : sep ∉ w' := fun h => hw (List.mem_cons_of_mem a h)
    rw [List.cons_append, splitOnChar, if_neg ha, ih hw']

theorem splitOnChar_sepFree (sep : Char) (w : List Char) (hw : sep ∉ w) :
    splitOnChar sep w = [w] := by
  induction w with
  | nil => rfl
  | cons a w' ih =>
    have ha : a ≠ sep := fun h => hw (h ▸ List.mem_cons_self a w')
    have hw' : sep ∉ w' := fun h => hw (List.mem_cons_of_mem a h)
    rw [splitOnChar, if_neg ha, ih hw']

theorem joinChar_splitOnChar (sep : Char) (cs : List Char) :
    joinChar sep (splitOnChar sep cs) = cs := by
  induction cs with
  | nil => rfl
  | cons c rest ih =>
    rw [splitOnChar]
    by_cases hc : c = sep
    · rw [if_pos hc]
      cases hsp : splitOnChar sep rest with
      | nil => exact absurd hsp (splitOnChar_ne_nil sep rest)
      | cons h0 tl =>
        rw [hsp] at ih
        rw [joinChar, List.nil_append, hc, ih]
    · rw [if_neg hc]
      cases hsp : splitOnChar sep rest with
      | nil => exact absurd hsp (splitOnChar_ne_nil sep rest)
      | cons h0 tl =>
        rw [hsp] at ih
        cases tl with
        | nil =>
          rw [joinChar] at ih
          rw [joinChar, ih]
        | cons y ys =>
          rw [joinChar] at ih
          rw [joinChar, List.cons_append, ih]

theorem joinChar_take (sep : Char) (l : List (List Char)) (n : Nat) :
    ∃ t, joinChar sep (l.take n) ++ t = joinChar sep l := by
  induction l generalizing n with
  | nil => refine ⟨[], ?_⟩; rw [List.take_nil]; rfl
  | cons x xs ih =>
    cases n with
    | zero => exact ⟨joinChar sep (x :: xs), rfl⟩
    | succ n =>
      rw [List.take_succ_cons]
      cases xs with
      | nil =>
        refine ⟨[], ?_⟩
        rw [List.take_nil]
        simp [joinChar]
      | cons y ys =>
        cases htk : List.take n (y :: ys) with
        | nil =>
          cases n with
          | zero => exact ⟨sep :: joinChar sep (y :: ys), rfl⟩
          | succ k => simp at htk
        | cons z zs =>
          obtain ⟨t, ht⟩ := ih n
          rw [htk] at ht
          refine ⟨t, ?_⟩
          rw [joinChar, joinChar, List.append_assoc, List.cons_append, ht]

theorem prefixOf_of_append (a t c : List Char) (h : a ++ t = c) : prefixOf a c = true := by
  rw [← h]; exact prefixOf_append a t

theorem map_data_map_mk (l : List (List Char)) : (l.map String.mk).map String.data = l := by
  induction l with
  | nil => rfl
  | cons x xs ih => simp only [List.map_cons, data_mk, ih]

theorem rstrip_prefixOf (f : Char → Bool) (h cs : List Char) (hp : prefixOf h cs = true) :
    prefixOf ((h.reverse.dropWhile f).reverse) cs = true := by
  obtain ⟨t, ht⟩ := (prefixOf_iff _ _).mp hp
  have h1 : h.reverse.takeWhile f ++ h.reverse.dropWhile f = h.reverse :=
    List.takeWhile_append_dropWhile f h.reverse
  have h2 : (h.reverse.dropWhile f).reverse ++ (h.reverse.takeWhile f).reverse = h := by
    rw [← List.reverse_append, h1, List.reverse_reverse]
  refine prefixOf_of_append _ ((h.reverse.takeWhile f).reverse ++ t) _ ?_
  rw [← List.append_assoc, h2, ht]

theorem dirnameChar_prefixOf (cs : List Char) : prefixOf (dirnameChar cs) cs = true := by
  have hpre : prefixOf
      (cs.take (cs.length - (cs.reverse.takeWhile (fun c => c ≠ '/')).length)) cs = true :=
    prefixOf_of_append _ _ _ (List.take_append_drop _ cs)
  simp only [dirnameChar]
  split
  · exact rstrip_prefixOf _ _ _ hpre
  · exact hpre

theorem baseFastqDir_prefixOf (fp : String) :
    prefixOf (baseFastqDir fp (splitSlash fp)).data fp.data = true := by
  unfold baseFastqDir
  cases hidx : (splitSlash fp).findIdx? (fun p => p = "FASTQ" ∨ p = "fastq") with
  | none => exact dirnameChar_prefixOf fp.data
  | some k =>
    change prefixOf
      (if k ≠ 0 then joinSlash (List.take (k + 1) (splitSlash fp))
       else (⟨dirnameChar fp.data⟩ : String)).data fp.data = true
    by_cases hk : k ≠ 0
    · rw [if_pos hk]
      obtain ⟨t, ht⟩ := joinChar_take '/' (splitOnChar '/' fp.data) (k + 1)
      rw [joinChar_splitOnChar] at ht
      have hdata : (joinSlash ((splitSlash fp).take (k + 1))).data
          = joinChar '/' ((splitOnChar '/' fp.data).take (k + 1)) := by
        unfold joinSlash splitSlash
        rw [data_mk, ← List.map_take, map_data_map_mk]
      exact prefixOf_of_append _ t _ (by rw [hdata]; exact ht)
    · rw [if_neg hk]
      exact dirnameChar_prefixOf fp.data

/-! ## Shape of the results of `extract_metadata` -/

theorem extractFrom_shape (fp : String) (parts : List String) (i : Nat) (m : Metadata)
    (hm : extractFrom fp parts i = some m) :
    ∃ ed, parts[i + 2]? = some ed ∧
      m = { researcher := researcherAt parts i
            experiment_type := experimentTypeOf (expCleanedOf (researcherAt parts i) ed)
                (joinSlash (parts.drop (i + 1)))
            description :=
              if sampleNameMatch (expCleanedOf (researcherAt parts i) ed) then none
              else some (expCleanedOf (researcherAt parts i) ed)
            group_key := baseFastqDir fp parts } := by
  unfold extractFrom at hm
  cases hed : parts[i + 2]? with
  | none => rw [hed] at hm; cases hm
  | some ed =>
    rw [hed] at hm
    by_cases hemp : ed = ""
    · subst hemp
      simp at hm
    · simp only [if_neg hemp, Option.some.injEq] at hm
      exact ⟨ed, rfl, hm.symm⟩

theorem extract_metadata_shape (fp : String) (m : Metadata)
    (hm : extract_metadata fp = some m) :
    m = emptyMeta fp ∨
      ∃ i ed, (splitSlash fp)[i + 2]? = some ed ∧
        m = { researcher := researcherAt (splitSlash fp) i
              experiment_type :=
                experimentTypeOf (expCleanedOf (researcherAt (splitSlash fp) i) ed)
                  (joinSlash ((splitSlash fp).drop (i + 1)))
              description :=
                if sampleNameMatch (expCleanedOf (researcherAt (splitSlash fp) i) ed) then none
                else some (expCleanedOf (researcherAt (splitSlash fp) i) ed)
              group_key := baseFastqDir fp (splitSlash fp) } := by
  unfold extract_metadata at hm
  by_cases h1 : containsSub "/data/".data fp.data = true
  · rw [if_pos h1] at hm
    cases hi : idxOf? (splitSlash fp) "data" with
    | some i =>
      rw [hi] at hm
      obtain ⟨ed, hed, hm'⟩ := extractFrom_shape fp (splitSlash fp) i m hm
      exact Or.inr ⟨i, ed, hed, hm'⟩
    | none =>
      rw [hi] at hm
      simp only [Option.some.injEq] at hm
      exact Or.inl hm.symm
  · rw [if_neg h1] at hm
    by_cases h2 : containsSub "/external_data/".data fp.data = true
    · rw [if_pos h2] at hm
      cases hi : idxOf? (splitSlash fp) "external_data" with
      | some i =>
        rw [hi] at hm
        obtain ⟨ed, hed, hm'⟩ := extractFrom_shape fp (splitSlash fp) i m hm
        exact Or.inr ⟨i, ed, hed, hm'⟩
      | none =>
        rw [hi] at hm
        simp only [Option.some.injEq] at hm
        exact Or.inl hm.symm
    · rw [if_neg h2] at hm
      simp only [Option.some.injEq] at hm
      exact Or.inl hm.symm

/-! ## Substring anchors give segment anchors -/

theorem mem_drop_one_split (w : List Char) (hw : '/' ∉ w) :
    ∀ cs : List Char, containsSub ('/' :: (w ++ ['/'])) cs = true →
      w ∈ (splitOnChar '/' cs).drop 1 := by
  intro cs
  induction cs with
  | nil =>
    intro h
    simp [containsSub, prefixOf] at h
  | cons c t ih =>
    intro h
    simp only [containsSub, Bool.or_eq_true] at h
    rcases h with hpre | hrec
    · obtain ⟨rest, hr⟩ := (prefixOf_iff _ _).mp hpre
      rw [List.cons_append] at hr
      injection hr with hc htail
      subst hc
      have ht' : w ++ '/' :: rest = t := by
        rw [← htail, List.append_assoc, List.singleton_append]
      subst ht'
      rw [show splitOnChar '/' ('/' :: (w ++ '/' :: rest)) =
            [] :: splitOnChar '/' (w ++ '/' :: rest) from by rw [splitOnChar, if_pos rfl]]
      rw [splitOnChar_append_sep '/' w rest hw]
      simp
    · have ihm := ih hrec
      by_cases hc : c = '/'
      · subst hc
        rw [show splitOnChar '/' ('/' :: t) = [] :: splitOnChar '/' t from by
          rw [splitOnChar, if_pos rfl]]
        exact List.mem_of_mem_drop (n := 1) (by simpa using ihm)
      · cases hsp : splitOnChar '/' t with
        | nil => exact absurd hsp (splitOnChar_ne_nil '/' t)
        | cons h0 tl =>
          rw [show splitOnChar '/' (c :: t) = (c :: h0) :: tl from by
            rw [splitOnChar, if_neg hc, hsp]]
          rw [hsp] at ihm
          simpa using ihm

theorem idxOf?_of_mem (x : String) (l : List String) (h : x ∈ l) :
    ∃ i, idxOf? l x = some i := by
  induction l with
  | nil => cases h
  | cons a t ih =>
    by_cases hax : a = x
    · exact ⟨0, by simp [idxOf?, hax]⟩
    · have hx : x ∈ t := by
        rcases List.mem_cons.mp h with h1 | h2
        · exact absurd h1.symm hax
        · exact h2
      obtain ⟨j, hj⟩ := ih hx
      exact ⟨j + 1, by simp [idxOf?, hax, hj]⟩

theorem anchor_segment_of_contains (fp : String)
    (hc : containsSub "/data/".data fp.data = true) :
    ∃ i, idxOf? (splitSlash fp) "data" = some i := by
  have hshape : "/data/".data = '/' :: ("data".data ++ ['/']) := by decide
  have hw : '/' ∉ "data".data := by decide
  rw [hshape] at hc
  have hmem := List.mem_of_mem_drop (mem_drop_one_split "data".data hw fp.data hc)
  have hmem' : ("data" : String) ∈ splitSlash fp := by
    unfold splitSlash
    exact List.mem_map_of_mem String.mk hmem
  exact idxOf?_of_mem _ _ hmem'

theorem anchor_segment_of_contains_ext (fp : String)
    (hc : containsSub "/external_data/".data fp.data = true) :
    ∃ i, idxOf? (splitSlash fp) "external_data" = some i := by
  have hshape : "/external_data/".data = '/' :: ("external_data".data ++ ['/']) := by decide
  have hw : '/' ∉ "external_data".data := by decide
  rw [hshape] at hc
  have hmem := List.mem_of_mem_drop (mem_drop_one_split "external_data".data hw fp.data hc)
  have hmem' : ("external_data" : String) ∈ splitSlash fp := by
    unfold splitSlash
    exact List.mem_map_of_mem String.mk hmem
  exact idxOf?_of_mem _ _ hmem'

theorem extract_eq_extractFrom_data (fp : String) (i : Nat)
    (hc : containsSub "/data/".data fp.data = true)
    (hi : idxOf? (splitSlash fp) "data" = some i) :
    extract_metadata fp = extractFrom fp (splitSlash fp) i := by
  unfold extract_metadata
  rw [if_pos hc, hi]

theorem extract_eq_extractFrom_ext (fp : String) (i : Nat)
    (hc1 : containsSub "/data/".data fp.data = false)
    (hc2 : containsSub "/external_data/".data fp.data = true)
    (hi : idxOf? (splitSlash fp) "external_data" = some i) :
    extract_metadata fp = extractFrom fp (splitSlash fp) i := by
  unfold extract_metadata
  rw [if_neg (by simp [hc1]), if_pos hc2, hi]

/-! ## Tokens found by the assay scan match rna / chip / atac case-insensitively -/

theorem reStartsWithChars_take (pat : List Char) :
    ∀ cs : List Char, reStartsWithChars pat cs = true →
      reEqIgnoreCase pat (cs.take pat.length) = true := by
  induction pat with
  | nil => intro cs _; rfl
  | cons p ps ih =>
    intro cs h
    cases cs with
    | nil => cases h
    | cons c cs' =>
      simp only [reStartsWithChars, Bool.and_eq_true] at h
      simp only [List.length_cons, List.take_succ_cons, reEqIgnoreCase, Bool.and_eq_true]
      exact ⟨h.1, ih cs' h.2⟩

theorem tokLen_match (cs : List Char) (n : Nat) (h : tokLen cs = some n) :
    reEqIgnoreCase "rna".data (cs.take n) = true ∨
      reEqIgnoreCase "chip".data (cs.take n) = true ∨
      reEqIgnoreCase "atac".data (cs.take n) = true := by
  unfold tokLen at h
  by_cases h1 : lowerStartsWith "rna" cs = true
  · rw [if_pos h1] at h
    injection h with hn
    subst hn
    exact Or.inl (reStartsWithChars_take "rna".data cs h1)
  · rw [if_neg h1] at h
    by_cases h2 : lowerStartsWith "chip" cs = true
    · rw [if_pos h2] at h
      injection h with hn
      subst hn
      exact Or.inr (Or.inl (reStartsWithChars_take "chip".data cs h2))
    · rw [if_neg h2] at h
      by_cases h3 : lowerStartsWith "atac" cs = true
      · rw [if_pos h3] at h
        injection h with hn
        subst hn
        exact Or.inr (Or.inr (reStartsWithChars_take "atac".data cs h3))
      · rw [if_neg h3] at h
        cases h

theorem mem_findAllTokensFuel_match (fuel : Nat) :
    ∀ (cs t : List Char), t ∈ findAllTokensFuel fuel cs →
      reEqIgnoreCase "rna".data t = true ∨ reEqIgnoreCase "chip".data t = true ∨
        reEqIgnoreCase "atac".data t = true := by
  induction fuel with
  | zero =>
    intro cs t ht
    simp [findAllTokensFuel] at ht
  | succ fuel ih =>
    intro cs t ht
    cases cs with
    | nil => simp [findAllTokensFuel] at ht
    | cons c rest =>
      simp only [findAllTokensFuel] at ht
      cases htok : tokLen (c :: rest) with
      | some n =>
        rw [htok] at ht
        simp only [List.mem_cons] at ht
        rcases ht with rfl | ht
        · exact tokLen_match _ _ htok
        · exact ih _ _ ht
      | none =>
        rw [htok] at ht
        exact ih _ _ ht

theorem mem_findTokens_match (s t : String) (ht : t ∈ findTokens s) :
    reEqIgnoreCase "rna".data t.data = true ∨ reEqIgnoreCase "chip".data t.data = true ∨
      reEqIgnoreCase "atac".data t.data = true := by
  unfold findTokens findAllTokens at ht
  obtain ⟨tc, htc, rfl⟩ := List.mem_map.mp ht
  exact mem_findAllTokensFuel_match _ _ _ htc

theorem mem_of_head?_eq {α : Type} {l : List α} {a : α} (h : l.head? = some a) : a ∈ l := by
  cases l with
  | nil => cases h
  | cons x xs =>
    simp only [List.head?_cons, Option.some.injEq] at h
    subst h
    exact List.mem_cons_self x xs

theorem mem_of_getLast?_eq {α : Type} {l : List α} {a : α} (h : l.getLast? = some a) :
    a ∈ l := by
  induction l with
  | nil => cases h
  | cons x xs ih =>
    cases xs with
    | nil =>
      simp only [List.getLast?_singleton, Option.some.injEq] at h
      subst h
      exact List.mem_cons_self x []
    | cons y ys =>
      rw [List.getLast?_cons_cons] at h
      exact List.mem_cons_of_mem x (ih h)

theorem experimentTypeOf_eq_some (a b et : String) (h : experimentTypeOf a b = some et) :
    ∃ t, (t ∈ findTokens a ∨ t ∈ findTokens b) ∧ et = t ++ "-seq" := by
  unfold experimentTypeOf at h
  cases hh : (findTokens a).head? with
  | some t =>
    rw [hh] at h
    simp only [Option.some.injEq] at h
    exact ⟨t, Or.inl (mem_of_head?_eq hh), h.symm⟩
  | none =>
    rw [hh] at h
    simp only [Option.map_eq_some'] at h
    obtain ⟨t, hl, ht⟩ := h
    exact ⟨t, Or.inr (mem_of_getLast?_eq hl), ht.symm⟩

/-! ## The head of a proposed archive name with a recognized experiment type -/

theorem split_join_head (b : String) (rest : List String) (hb : '/' ∉ b.data) :
    (splitSlash (joinSlash (b :: rest))).head? = some b := by
  cases rest with
  | nil =>
    show ((splitOnChar '/' (joinChar '/' [b.data])).map String.mk).head? = some b
    rw [show joinChar '/' [b.data] = b.data from rfl, splitOnChar_sepFree '/' b.data hb]
    rfl
  | cons y ys =>
    show ((splitOnChar '/' (joinChar '/' (b.data :: y.data :: ys.map String.data))).map
        String.mk).head? = some b
    rw [show joinChar '/' (b.data :: y.data :: ys.map String.data) =
          b.data ++ '/' :: joinChar '/' (y.data :: ys.map String.data) from rfl,
        splitOnChar_append_sep '/' b.data _ hb]
    rfl

theorem mapExperimentType_rna (et : String) (h : lowerOf et = "rna-seq") :
    mapExperimentType (some et) = some "slattery-rnaseq" := by
  have hne : et ≠ "" := by intro h0; subst h0; exact absurd h (by decide)
  simp only [mapExperimentType]
  rw [if_neg hne, if_pos h]

theorem mapExperimentType_chip (et : String) (h : lowerOf et = "chip-seq") :
    mapExperimentType (some et) = some "slattery-chipseq" := by
  have hne : et ≠ "" := by intro h0; subst h0; exact absurd h (by decide)
  have h1 : lowerOf et ≠ "rna-seq" := by rw [h]; decide
  simp only [mapExperimentType]
  rw [if_neg hne, if_neg h1, if_pos h]

theorem mapExperimentType_atac (et : String) (h : lowerOf et = "atac-seq") :
    mapExperimentType (some et) = some "slattery-atacseq" := by
  have hne : et ≠ "" := by intro h0; subst h0; exact absurd h (by decide)
  have h1 : lowerOf et ≠ "rna-seq" := by rw [h]; decide
  have h2 : lowerOf et ≠ "chip-seq" := by rw [h]; decide
  simp only [mapExperimentType]
  rw [if_neg hne, if_neg h1, if_neg h2, if_pos h]

theorem propose_head_bucket (r d : Option String) (et : String)
    (h : lowerOf et = "rna-seq" ∨ lowerOf et = "chip-seq" ∨ lowerOf et = "atac-seq") :
    ∃ bkt, mapExperimentType (some et) = some bkt ∧
      (splitSlash (propose_archive_directory r (some et) d)).head? = some bkt := by
  have hbkt : ∃ bkt : String,
      mapExperimentType (some et) = some bkt ∧ bkt ≠ "" ∧ '/' ∉ bkt.data := by
    rcases h with h | h | h
    · exact ⟨"slattery-rnaseq", mapExperimentType_rna et h, by decide, by decide⟩
    · exact ⟨"slattery-chipseq", mapExperimentType_chip et h, by decide, by decide⟩
    · exact ⟨"slattery-atacseq", mapExperimentType_atac et h, by decide, by decide⟩
  obtain ⟨bkt, hmap, hne, hsl⟩ := hbkt
  refine ⟨bkt, hmap, ?_⟩
  have hcomp : componentsOf r (some et) d = bkt :: (optComp r ++ descComp (some bkt) d) := by
    unfold componentsOf
    rw [hmap, show optComp (some bkt) = [bkt] from by simp [optComp, hne]]
    rw [List.append_assoc]
    rfl
  unfold propose_archive_directory
  rw [hcomp, if_neg (by simp)]
  exact split_join_head bkt _ hsl

/-! ## Claims -/

/-- Claim C1: the spec states `extract_metadata` is total and never raises,
with every missing piece modeled as an absent field.  The code violates this:
on an anchored path with no segment two past the anchor, `description` stays
`None`, and line 80 evaluates `sample_name_pattern.match(None)`, which raises
`TypeError`.  The embedding returns `none` (= uncaught exception) there. -/
theorem extract_metadata_crash_missing_experiment_dir :
    containsSub "/data/".data "/data/x".data = true ∧
      extract_metadata "/data/x" = none := by
  decide

/-- Claim C2: the spec states `group_key` is the path prefix up to and
including the first `FASTQ`/`fastq` segment, in particular when that segment
is the very first one.  The code contradicts its own comment there: line 90's
`if fastq_idx:` is a truthiness test, so index 0 falls into the "no FASTQ
directory found" branch and `"FASTQ/data/a/b"` gets the dirname
`"FASTQ/data/a"` instead of the prefix `"FASTQ"`. -/
theorem group_key_fastq_first_segment_bug :
    (splitSlash "FASTQ/data/a/b").findIdx? (fun p => p = "FASTQ" ∨ p = "fastq") = some 0 ∧
      extract_metadata "FASTQ/data/a/b" =
        some ⟨some "a", none, some "b", "FASTQ/data/a"⟩ := by
  decide

/-- Claim C3, counterexample: the claim says a segment equal to `data` in any
position (including the first segment of a relative path) anchors the
extraction.  On `"data/foo/bar"` the segment list contains `"data"`, yet the
code returns the all-empty metadata reserved for paths with no anchor, because
its anchor test is substring containment of `"/data/"`. -/
theorem anchor_segment_only_counterexample :
    ("data" : String) ∈ splitSlash "data/foo/bar" ∧
      extract_metadata "data/foo/bar" = some (emptyMeta "data/foo/bar") := by
  decide

/-- Claim C3, amended: the anchor is located by substring containment
(`'/data/' in path`, then `'/external_data/' in path`), i.e. the anchor
segment must be both preceded and followed by `/` somewhere in the path; the
anchor index is then the first segment equal to the anchor name, and
extraction proceeds from it.  If neither substring occurs, the result is the
empty metadata with `group_key` equal to the full input path. -/
theorem anchor_by_substring (fp : String) :
    (containsSub "/data/".data fp.data = false →
      containsSub "/external_data/".data fp.data = false →
      extract_metadata fp = some (emptyMeta fp)) ∧
    (containsSub "/data/".data fp.data = true →
      ∃ i, idxOf? (splitSlash fp) "data" = some i ∧
        extract_metadata fp = extractFrom fp (splitSlash fp) i) ∧
    (containsSub "/data/".data fp.data = false →
      containsSub "/external_data/".data fp.data = true →
      ∃ i, idxOf? (splitSlash fp) "external_data" = some i ∧
        extract_metadata fp = extractFrom fp (splitSlash fp) i) := by
  refine ⟨?_, ?_, ?_⟩
  · intro h1 h2
    unfold extract_metadata
    rw [if_neg (by simp [h1]), if_neg (by simp [h2])]
  · intro hc
    obtain ⟨i, hi⟩ := anchor_segment_of_contains fp hc
    exact ⟨i, hi, extract_eq_extractFrom_data fp i hc hi⟩
  · intro h1 h2
    obtain ⟨i, hi⟩ := anchor_segment_of_contains_ext fp h2
    exact ⟨i, hi, extract_eq_extractFrom_ext fp i h1 h2 hi⟩

/-- Witness for the amended C3 at concrete inputs. -/
theorem anchor_by_substring_witness :
    extract_metadata "x/y" = some (emptyMeta "x/y") ∧
      ∃ i, idxOf? (splitSlash "/a/data/b/c") "data" = some i ∧
        extract_metadata "/a/data/b/c" =
          extractFrom "/a/data/b/c" (splitSlash "/a/data/b/c") i :=
  ⟨(anchor_by_substring "x/y").1 (by decide) (by decide),
   (anchor_by_substring "/a/data/b/c").2.1 (by decide)⟩

/-- Claim C4, counterexample: the claim says a description ending in
`.fastq.bz2` (among others) is discarded.  The source pattern
`.*\.fastq\.?g?z?$` cannot match `.fastq.bz2`, so the description
`"s.fastq.bz2"` is kept, not discarded. -/
theorem sample_description_bz2_counterexample :
    specSampleNameMatch "s.fastq.bz2" = true ∧
      extract_metadata "/data/A/s.fastq.bz2" =
        some ⟨some "A", none, some "s.fastq.bz2", "/data/A"⟩ := by
  decide

/-- Claim C4, amended: the post-check discards exactly the descriptions
matched by `.*\.fastq\.?g?z?$` (case-insensitive), i.e. those ending in
`.fastq` followed by an optional `.`, an optional `g` and an optional `z` —
this covers `.fastq` and `.fastq.gz` but not `.fastq.bz2`.  Every description
returned by `extract_metadata` fails that pattern, and an experiment directory
that is itself such a sample filename yields no description. -/
theorem description_sample_filename_discarded :
    (∀ fp m d, extract_metadata fp = some m → m.description = some d →
      sampleNameMatch d = false) ∧
      extract_metadata "/data/A/s1_R1.fastq.gz" =
        some ⟨some "A", none, none, "/data/A"⟩ := by
  constructor
  · intro fp m d hm hd
    rcases extract_metadata_shape fp m hm with rfl | ⟨i, ed, hed, rfl⟩
    · simp [emptyMeta] at hd
    · dsimp only at hd
      by_cases hs :
          sampleNameMatch (expCleanedOf (researcherAt (splitSlash fp) i) ed) = true
      · rw [if_pos hs] at hd
        cases hd
      · rw [if_neg hs] at hd
        injection hd with hd'
        subst hd'
        cases hb : sampleNameMatch (expCleanedOf (researcherAt (splitSlash fp) i) ed)
        · rfl
        · exact absurd hb hs
  · decide

/-- Witness for the amended C4: a returned description fails the sample
pattern. -/
theorem description_sample_filename_discarded_witness :
    sampleNameMatch "b" = false :=
  description_sample_filename_discarded.1 "/data/A/b"
    ⟨some "A", none, some "b", "/data/A"⟩ "b" (by decide) (by decide)

/-- Claim C5: for an anchored path whose first-level segment is `X`, the
returned researcher is `X` with the trailing assay suffix removed by
`re.sub(r'[\-\_]?((RNA)|(ChIP)|(ATAC))\-?(seq)?$', '', X, re.IGNORECASE)`
(an optional `-`/`_` separator, one of RNA/ChIP/ATAC, an optional `-`, an
optional `seq`, case-insensitive and anchored at the end), e.g.
`Salil_RNA-seq` yields `Salil`. -/
theorem researcher_strips_assay_suffix (fp X : String) (i : Nat) (m : Metadata)
    (hc : containsSub "/data/".data fp.data = true)
    (hi : idxOf? (splitSlash fp) "data" = some i)
    (hX : (splitSlash fp)[i + 1]? = some X)
    (hm : extract_metadata fp = some m) :
    m.researcher = some (stripAssaySuffix X) := by
  rw [extract_eq_extractFrom_data fp i hc hi] at hm
  obtain ⟨ed, hed, rfl⟩ := extractFrom_shape fp (splitSlash fp) i m hm
  show researcherAt (splitSlash fp) i = some (stripAssaySuffix X)
  unfold researcherAt
  rw [hX]
  by_cases h0 : X = ""
  · subst h0
    simp only [Option.map_some']
    decide
  · simp only [Option.map_some']
    rw [if_neg h0]

/-- Witness for C5 at the spec's own example segment `Salil_RNA-seq`. -/
theorem researcher_strips_assay_suffix_witness :
    Metadata.researcher
        ⟨some "Salil", some "RNA-seq", some "e1", "/data/Salil_RNA-seq/e1"⟩ =
      some (stripAssaySuffix "Salil_RNA-seq") :=
  researcher_strips_assay_suffix "/data/Salil_RNA-seq/e1/f" "Salil_RNA-seq" 1
    ⟨some "Salil", some "RNA-seq", some "e1", "/data/Salil_RNA-seq/e1"⟩
    (by decide) (by decide) (by decide) (by decide)

/-- Claim C6, counterexample: the claim says the fallback sets `description`
to the stripped experiment-directory string.  On `"/data/A/x.fastq/RNA/f"` the
fallback fires (no token in the experiment directory `x.fastq`, last token in
the remaining path is `RNA`), but the returned description is absent, because
the later sample-filename post-check clears `x.fastq`. -/
theorem fallback_description_counterexample :
    findTokens (expCleanedOf (researcherAt (splitSlash "/data/A/x.fastq/RNA/f") 1)
        "x.fastq") = [] ∧
      (findTokens (joinSlash ((splitSlash "/data/A/x.fastq/RNA/f").drop 2))).getLast?
        = some "RNA" ∧
      extract_metadata "/data/A/x.fastq/RNA/f" =
        some ⟨some "A", some "RNA-seq", none, "/data/A/x.fastq/RNA"⟩ := by
  decide

/-- Claim C6, amended: on an anchored path whose researcher-stripped
experiment directory contains no RNA/ChIP/ATAC token while the remaining path
(segments after the anchor, joined) does, `experiment_type` is the last
findall occurrence of the token plus `-seq`, and `description` is the stripped
experiment-directory string unless that string itself matches the
sample-filename pattern, in which case it is absent; no input raises. -/
theorem fallback_last_token_in_path (fp : String) (i : Nat) (ed t : String) (m : Metadata)
    (hc : containsSub "/data/".data fp.data = true)
    (hi : idxOf? (splitSlash fp) "data" = some i)
    (hed : (splitSlash fp)[i + 2]? = some ed)
    (hnone : findTokens (expCleanedOf (researcherAt (splitSlash fp) i) ed) = [])
    (hlast : (findTokens (joinSlash ((splitSlash fp).drop (i + 1)))).getLast? = some t)
    (hm : extract_metadata fp = some m) :
    m.experiment_type = some (t ++ "-seq") ∧
      m.description =
        if sampleNameMatch (expCleanedOf (researcherAt (splitSlash fp) i) ed) then none
        else some (expCleanedOf (researcherAt (splitSlash fp) i) ed) := by
  rw [extract_eq_extractFrom_data fp i hc hi] at hm
  obtain ⟨ed', hed', rfl⟩ := extractFrom_shape fp (splitSlash fp) i m hm
  rw [hed] at hed'
  injection hed' with hed''
  subst hed''
  constructor
  · show experimentTypeOf (expCleanedOf (researcherAt (splitSlash fp) i) ed)
        (joinSlash ((splitSlash fp).drop (i + 1))) = some (t ++ "-seq")
    unfold experimentTypeOf
    rw [hnone]
    simp [hlast]
  · rfl

/-- Witness for the amended C6 on a path whose experiment directory carries no
token but whose tail does. -/
theorem fallback_last_token_in_path_witness :
    Metadata.experiment_type
        ⟨some "A", some "RNA-seq", some "study1", "/data/A/study1/RNA"⟩ =
      some ("RNA" ++ "-seq") ∧
      Metadata.description
          ⟨some "A", some "RNA-seq", some "study1", "/data/A/study1/RNA"⟩ =
        if sampleNameMatch (expCleanedOf
            (researcherAt (splitSlash "/data/A/study1/RNA/f.txt") 1) "study1") then none
        else some (expCleanedOf
            (researcherAt (splitSlash "/data/A/study1/RNA/f.txt") 1) "study1") :=
  fallback_last_token_in_path "/data/A/study1/RNA/f.txt" 1 "study1" "RNA"
    ⟨some "A", some "RNA-seq", some "study1", "/data/A/study1/RNA"⟩
    (by decide) (by decide) (by decide) (by decide) (by decide) (by decide)

/-- Claim C7: `propose_archive_directory("Salil", "RNA-seq", "mm10_aged-study")`
maps the experiment type through the fixed table to `slattery-rnaseq`, strips
the organism prefix `mm10_` from the description, and joins
[experiment type, researcher, description] with `/`. -/
theorem propose_archive_directory_example :
    propose_archive_directory (some "Salil") (some "RNA-seq") (some "mm10_aged-study") =
      "slattery-rnaseq/Salil/aged-study" := by
  decide

/-- Claim C8: `propose_archive_directory` is pure and total: it is a Lean
function returning a string for every combination of optional inputs; the
surviving components are joined with `/`, and when the component list is empty
— in particular on all-`None` input — the result is the literal
`uncategorized`. -/
theorem propose_archive_directory_total :
    propose_archive_directory none none none = "uncategorized" ∧
      ∀ r e d : Option String,
        (componentsOf r e d = [] → propose_archive_directory r e d = "uncategorized") ∧
        (componentsOf r e d ≠ [] →
          propose_archive_directory r e d = joinSlash (componentsOf r e d)) := by
  refine ⟨by decide, ?_⟩
  intro r e d
  constructor
  · intro h
    unfold propose_archive_directory
    rw [if_pos h]
  · intro h
    unfold propose_archive_directory
    rw [if_neg h]

/-- Witness for C8 with a nonempty component list. -/
theorem propose_archive_directory_total_witness :
    propose_archive_directory (some "A") none none =
      joinSlash (componentsOf (some "A") none none) :=
  (propose_archive_directory_total.2 (some "A") none none).2 (by decide)

/-- Claim C9: whenever `extract_metadata` returns, the returned `group_key` is
a prefix of the input path string (the full path, a prefix ending at a
recognized segment, or the parent directory). -/
theorem group_key_prefix_invariant (fp : String) (m : Metadata)
    (hm : extract_metadata fp = some m) :
    prefixOf m.group_key.data fp.data = true := by
  rcases extract_metadata_shape fp m hm with rfl | ⟨i, ed, hed, rfl⟩
  · exact prefixOf_refl fp.data
  · exact baseFastqDir_prefixOf fp

/-- Witness for C9 on an anchor-free path. -/
theorem group_key_prefix_invariant_witness :
    prefixOf (Metadata.group_key (emptyMeta "/a/b")).data "/a/b".data = true :=
  group_key_prefix_invariant "/a/b" (emptyMeta "/a/b") (by decide)

/-- Claim C10, counterexample: the program violates the claim at
`"/data/A/CH\u0130P_x/f"`.  Under `re.IGNORECASE` the token `CH\u0130P`
(with U+0130, whose Unicode *simple* lowercase is `i`) matches `ChIP`, so
`experiment_type` is `CH\u0130P-seq`; but `str.lower()` applies the *full*
case mapping, `"CH\u0130P-seq".lower()` is the nine-character
`chi\u0307p-seq`, the table of `propose_archive_directory` does not recognize
it, the experiment type is dropped, and the proposed name's first
`/`-component is the researcher `A`, not a `slattery-*` bucket. -/
theorem nonascii_token_dropped_counterexample :
    extract_metadata "/data/A/CHİP_x/f" =
        some ⟨some "A", some "CHİP-seq", some "CHİP_x", "/data/A/CHİP_x"⟩ ∧
      lowerOf "CHİP-seq" ≠ "chip-seq" ∧
      mapExperimentType (some "CHİP-seq") = none ∧
      (splitSlash (propose_archive_directory (some "A") (some "CHİP-seq")
          (some "CHİP_x"))).head? = some "A" := by
  decide

/-- Claim C10, amended: every non-empty `experiment_type` returned by
`extract_metadata` is a token matching RNA, ChIP or ATAC case-insensitively
under the regex's simple case mapping (in the letter case found in the path),
followed by `-seq`; whenever `str.lower()` of that experiment type is exactly
`rna-seq`, `chip-seq` or `atac-seq` (which holds for all ASCII tokens but not
for exotic case variants such as `CH\u0130P`), `propose_archive_directory`
maps it through the fixed table instead of dropping it, and the proposed
name's first `/`-component is the corresponding `slattery-*` bucket. -/
theorem experiment_type_token_and_bucket (fp : String) (m : Metadata) (et : String)
    (hm : extract_metadata fp = some m) (het : m.experiment_type = some et) :
    (∃ t, et = t ++ "-seq" ∧
        (reEqIgnoreCase "rna".data t.data = true ∨
          reEqIgnoreCase "chip".data t.data = true ∨
          reEqIgnoreCase "atac".data t.data = true)) ∧
      ((lowerOf et = "rna-seq" ∨ lowerOf et = "chip-seq" ∨ lowerOf et = "atac-seq") →
        ∃ bkt, mapExperimentType (some et) = some bkt ∧
          (splitSlash (propose_archive_directory m.researcher m.experiment_type
              m.description)).head? = some bkt) := by
  have htok : ∃ t, et = t ++ "-seq" ∧
      (reEqIgnoreCase "rna".data t.data = true ∨
        reEqIgnoreCase "chip".data t.data = true ∨
        reEqIgnoreCase "atac".data t.data = true) := by
    rcases extract_metadata_shape fp m hm with rfl | ⟨i, ed, hed, rfl⟩
    · simp [emptyMeta] at het
    · dsimp only at het
      obtain ⟨t, hmem, hts⟩ := experimentTypeOf_eq_some _ _ _ het
      refine ⟨t, hts, ?_⟩
      rcases hmem with hmem | hmem
      · exact mem_findTokens_match _ _ hmem
      · exact mem_findTokens_match _ _ hmem
  refine ⟨htok, ?_⟩
  intro hlow
  rw [het]
  exact propose_head_bucket m.researcher m.description et hlow

/-- Witness for the amended C10 on a path that yields experiment type
`RNA-seq`. -/
theorem experiment_type_token_and_bucket_witness :
    (∃ t, ("RNA-seq" : String) = t ++ "-seq" ∧
        (reEqIgnoreCase "rna".data t.data = true ∨
          reEqIgnoreCase "chip".data t.data = true ∨
          reEqIgnoreCase "atac".data t.data = true)) ∧
      ((lowerOf "RNA-seq" = "rna-seq" ∨ lowerOf "RNA-seq" = "chip-seq" ∨
          lowerOf "RNA-seq" = "atac-seq") →
        ∃ bkt, mapExperimentType (some "RNA-seq") = some bkt ∧
          (splitSlash (propose_archive_directory (some "A") (some "RNA-seq")
              (some "RNA_x"))).head? = some bkt) :=
  experiment_type_token_and_bucket "/data/A/RNA_x/f"
    ⟨some "A", some "RNA-seq", some "RNA_x", "/data/A/RNA_x"⟩ "RNA-seq"
    (by decide) (by decide)
